import Mathlib

/-!
Shallow embedding of the doc-serving pipeline of
`readthedocs/proxito/views.py` (serve_docs, map_subproject_slug,
redirect_project_slug, _serve_401, _serve_docs_nginx), together with the
string-encoding helpers the pipeline relies on (Django's iri_to_uri,
os.path.join, str.strip, urllib quoting).

Strings are Lean `String`s; Django model rows are plain structures kept in a
`Database` value; the ORM lookups (`filter(...).first()`, `get_object_or_404`)
become `List.find?` over those rows in table order.  External effects that the
pipeline triggers (version lookup, the permission predicate, storage access)
are recorded in an explicit effect trace returned next to the response.
-/

/-- Codomain of a served request: every terminal outcome of the pipeline.
`unauthorized` mirrors the rendered 401 page produced by `_serve_401`;
`casLogin s n` mirrors `cas_login(request, next_page=n)` performed after
setting `settings.CAS_SERVER_URL = s`; `djangoFile` is the PYTHON_MEDIA
local-serving branch; `nginx ct enc header pathArg` is the response built by
`_serve_docs_nginx` (content type, optional Content-Encoding, the
X-Accel-Redirect header value as a list of code points, and the raw path
argument the header was computed from). -/
inductive Response where
  | redirect (target : String)
  | notFound (reason : String)
  | unauthorized
  | casLogin (server : String) (nextPage : String)
  | djangoFile (path : String)
  | nginx (contentType : String) (contentEncoding : Option String)
      (header : List Nat) (pathArg : String)
deriving DecidableEq, Repr

/-- Observable external effects of one request, in program order. -/
inductive Effect where
  | versionLookup (slug : Option String)
  | permCheck
  | storage (path : String)
deriving DecidableEq, Repr

/-- A row of the projects table.  `default_version` models the value returned
by `Project.get_default_version()`; `single_version` is the flag tested by
`serve_docs`. -/
structure Project where
  slug : String
  language : String
  single_version : Bool
  default_version : String
deriving DecidableEq, Repr

/-- A row of the ProjectRelationship table.  The source field name is
`alias`, which is a reserved word in Lean, hence `alias_slug`. -/
structure Relationship where
  parent : String
  child : Project
  alias_slug : Option String
deriving DecidableEq, Repr

/-- A row of the builds Version table, keyed by (project slug, version slug). -/
structure Version where
  project : String
  slug : String
deriving DecidableEq, Repr

/-- Read-only view of the persisted tables that the pipeline consults.
`translations` holds pairs (owning project slug, translation project),
modelling the `Project.translations` reverse relation. -/
structure Database where
  relationships : List Relationship
  versions : List Version
  translations : List (String × Project)
deriving DecidableEq, Repr

/-- The static configuration the pipeline branches on
(`settings.PYTHON_MEDIA`). -/
structure Settings where
  python_media : Bool
deriving DecidableEq, Repr

/-- Path and query component of the signed URL produced by
`storage.url(path)`; `urlparse(url).path` and `urlparse(url).query` in the
source. -/
structure SignedUrl where
  path : String
  query : String
deriving DecidableEq, Repr

/-- Per-request data: `absolute_uri` models `request.build_absolute_uri()`
(the full original URL including the query string), `query` models
`urlparse(request.get_full_path()).query`, and `user_authenticated` models
`request.user.is_authenticated`. -/
structure Request where
  absolute_uri : String
  query : String
  user_authenticated : Bool
deriving DecidableEq, Repr

/-- Python truthiness of an optional string (`None` and the empty string are
falsy). -/
def truthy : Option String → Bool
  | none => false
  | some s => !(s == "")

/-- Translation projects of `p` in table order
(`current_project.translations.all()`). -/
def translationsOf (db : Database) (p : Project) : List Project :=
  (db.translations.filter (fun e => e.1 == p.slug)).map (fun e => e.2)

/-- Decision if a needle occurs as a contiguous substring of the haystack
(Python's `in` on strings). -/
def listHasSub (needle : List Char) : List Char → Bool
  | [] => needle == []
  | c :: t => needle.isPrefixOf (c :: t) || listHasSub needle t

/-- Test for `'ticket=' in request.build_absolute_uri()`. -/
def hasTicket (req : Request) : Bool :=
  listHasSub "ticket=".data req.absolute_uri.data

/-- CAS server URL chosen by `serve_docs` before calling `cas_login`. -/
def cas_server (req : Request) : String :=
  if hasTicket req then "http://web:8000/cas/" else "http://dev.readthedocs.io/cas/"

/-- Modelled from the spec: `readthedocs.core.resolver.resolve` is not part of
src; per the spec it returns the project's canonical
default-language/default-version root URL, preserving the original query
string.  Used by `redirect_project_slug`. -/
def resolve (p : Project) (query_params : String) : String :=
  "/" ++ p.language ++ "/" ++ p.default_version ++ "/"
    ++ (if query_params == "" then "" else "?" ++ query_params)

/-- Modelled from the spec: `Project.get_storage_path` is not part of src; per
the spec it is the storage-path template `storage_root(project, version)`
rendered from the project slug and version slug (a `None` version slug prints
as the literal "None" as a Python format string would). -/
def get_storage_path (p : Project) (vslug : Option String) : String :=
  "html/" ++ p.slug ++ "/" ++ (match vslug with | some s => s | none => "None")

/-- Python `os.path.join` on two segments. -/
def ospJoin (a b : String) : String :=
  if b.data.head? == some '/' then b
  else if a == "" then b
  else if a.data.getLast? == some '/' then a ++ b
  else a ++ "/" ++ b

/-- Test whether the last character of a string is a slash
(`path[-1] == '/'` in the source, on a provably nonempty string). -/
def endsWithSlash (s : String) : Bool :=
  s.data.getLast? == some '/'

/-- Directory-index completion on a storage path: append `index.html` when
the path ends in a separator (lines 247-248 of the source). -/
def indexify (path : String) : String :=
  if endsWithSlash path then path ++ "index.html" else path

/-- The single storage path computed by the dispatcher:
`f-string storage_path/filename` followed by `indexify`. -/
def doc_path (p : Project) (vslug : Option String) (filename : String) : String :=
  indexify (get_storage_path p vslug ++ "/" ++ filename)

/-- Python `str.strip('/')` on the character list of a string. -/
def stripSlashesList (l : List Char) : List Char :=
  ((l.dropWhile (fun c => c == '/')).reverse.dropWhile (fun c => c == '/')).reverse

/-- Python `str.strip('/')`. -/
def stripSlashes (s : String) : String :=
  String.mk (stripSlashesList s.data)

/-- Characters left unquoted by Django's `iri_to_uri`, that is
`urllib.parse.quote` with `safe="/#%[]=:;$&()+,!?*@'~"` plus the always-safe
ASCII letters, digits and `_.-~`. -/
def allowedChar (c : Nat) : Bool :=
  decide (48 ≤ c ∧ c ≤ 57) || decide (65 ≤ c ∧ c ≤ 90) || decide (97 ≤ c ∧ c ≤ 122) ||
  decide (c ∈ [95, 46, 45, 126, 47, 35, 37, 91, 93, 61, 58, 59, 36, 38,
   40, 41, 43, 44, 33, 63, 42, 64, 39])

/-- UTF-8 encoding of one code point as a byte list. -/
def utf8Encode (c : Nat) : List Nat :=
  if c < 0x80 then [c]
  else if c < 0x800 then [0xC0 + c / 0x40, 0x80 + c % 0x40]
  else if c < 0x10000 then
    [0xE0 + c / 0x1000, 0x80 + (c / 0x40) % 0x40, 0x80 + c % 0x40]
  else
    [0xF0 + c / 0x40000, 0x80 + (c / 0x1000) % 0x40,
     0x80 + (c / 0x40) % 0x40, 0x80 + c % 0x40]

/-- Uppercase hexadecimal digit character code for a nibble. -/
def hexDigit (n : Nat) : Nat :=
  if n < 10 then 48 + n else 55 + n

/-- Percent-encoding of one byte, `%XX` with uppercase hex as produced by
`urllib.parse.quote`. -/
def pctEncodeByte (b : Nat) : List Nat :=
  [37, hexDigit (b / 16), hexDigit (b % 16)]

/-- Concatenation of the images of a list under a list-valued function. -/
def concatMap (f : α → List β) : List α → List β
  | [] => []
  | a :: l => f a ++ concatMap f l

/-- Django's `iri_to_uri` over code points: safe characters pass through,
every other code point is UTF-8 encoded and percent-escaped. -/
def iriToUri (s : List Nat) : List Nat :=
  concatMap (fun c => if allowedChar c then [c] else concatMap pctEncodeByte (utf8Encode c)) s

/-- Value of a hexadecimal digit character code, if it is one. -/
def hexVal (c : Nat) : Option Nat :=
  if 48 ≤ c ∧ c ≤ 57 then some (c - 48)
  else if 65 ≤ c ∧ c ≤ 70 then some (c - 55)
  else if 97 ≤ c ∧ c ≤ 102 then some (c - 87)
  else none

/-- Percent-decoding of an ASCII-safe URI character sequence to bytes. -/
def pctDecode : List Nat → Option (List Nat)
  | [] => some []
  | c :: rest =>
    if c = 37 then
      match rest with
      | h :: l :: rest2 =>
        match hexVal h, hexVal l with
        | some hv, some lv => (pctDecode rest2).map (fun r => (16 * hv + lv) :: r)
        | _, _ => none
      | _ => none
    else (pctDecode rest).map (fun r => c :: r)

/-- Consumption of one UTF-8 continuation byte, shifting the partial code
point. -/
def cont1 (hi : Nat) : List Nat → Option (Nat × List Nat)
  | b2 :: rest => if 0x80 ≤ b2 ∧ b2 < 0xC0 then some (hi * 0x40 + (b2 - 0x80), rest) else none
  | [] => none

/-- Consumption of two UTF-8 continuation bytes. -/
def cont2 (hi : Nat) (l : List Nat) : Option (Nat × List Nat) :=
  (cont1 hi l).bind (fun p => cont1 p.1 p.2)

/-- Consumption of three UTF-8 continuation bytes. -/
def cont3 (hi : Nat) (l : List Nat) : Option (Nat × List Nat) :=
  (cont2 hi l).bind (fun p => cont1 p.1 p.2)

/-- Decoding of one UTF-8 code point from the front of a byte list,
returning it with the unconsumed rest. -/
def utf8DecodeOne : List Nat → Option (Nat × List Nat)
  | [] => none
  | b :: rest =>
    if b < 0x80 then some (b, rest)
    else if b < 0xC0 then none
    else if b < 0xE0 then cont1 (b - 0xC0) rest
    else if b < 0xF0 then cont2 (b - 0xE0) rest
    else if b < 0xF8 then cont3 (b - 0xF0) rest
    else none

/-- Fuelled UTF-8 decoding loop; the fuel only has to dominate the byte
count. -/
def utf8DecodeLoop : Nat → List Nat → Option (List Nat)
  | _, [] => some []
  | 0, _ :: _ => none
  | fuel + 1, b :: rest =>
    (utf8DecodeOne (b :: rest)).bind
      (fun p => (utf8DecodeLoop fuel p.2).map (fun l => p.1 :: l))

/-- UTF-8 decoding of a byte list back to code points. -/
def utf8Decode (l : List Nat) : Option (List Nat) :=
  utf8DecodeLoop l.length l

/-- Decoding an ASCII-safe URI back to the internationalized path it encodes:
percent-decode to bytes, then UTF-8 decode to code points. -/
def uriToIri (u : List Nat) : Option (List Nat) :=
  (pctDecode u).bind utf8Decode

/-- Suffix test on strings. -/
def strEndsWith (s suffix : String) : Bool :=
  List.isSuffixOf suffix.data s.data

/-- Modelled from the spec: `mimetypes.guess_type` is external; per the spec
the content type is guessed from the file extension (the caller substitutes
`application/octet-stream` when unknown) and the guessed `Content-Encoding`
is set when non-empty. -/
def guess_type (path : String) : Option String × Option String :=
  if strEndsWith path ".html" then (some "text/html", none)
  else if strEndsWith path ".js" then (some "application/javascript", none)
  else if strEndsWith path ".gz" then (none, some "gzip")
  else (none, none)

/-- The rendered 401 page of `_serve_401` (source lines 23-27). -/
def serve_401 : Response := Response.unauthorized

/-- The response built by `_serve_docs_nginx` (source lines 285-304): guessed
content type with `application/octet-stream` default, optional
Content-Encoding, and an X-Accel-Redirect header obtained by applying
`iri_to_uri` to the path argument. -/
def serve_docs_nginx (path : String) : Response :=
  let ct := guess_type path
  Response.nginx (ct.1.getD "application/octet-stream") ct.2
    (iriToUri (path.data.map Char.toNat)) path

/-- Header value of a response, empty for non-nginx responses. -/
def response_header : Response → List Nat
  | Response.nginx _ _ h _ => h
  | _ => []

/-- Path argument recorded in an nginx response, empty otherwise. -/
def response_path_arg : Response → String
  | Response.nginx _ _ _ p => p
  | _ => ""

/-- Test for the notFound (HTTP 404) outcome. -/
def is_not_found : Response → Bool
  | Response.notFound _ => true
  | _ => false

/-- Test for the storage effect. -/
def is_storage : Effect → Bool
  | Effect.storage _ => true
  | _ => false

/-- Single-version fold of source lines 173-176: when both slugs are truthy
they are joined into the filename with `os.path.join` and cleared. -/
def fold_single_version (lang_slug version_slug : Option String) (filename : String) :
    Option String × Option String × String :=
  match lang_slug, version_slug with
  | some l, some v =>
    if l ≠ "" ∧ v ≠ "" then (none, none, ospJoin (ospJoin l v) filename)
    else (some l, some v, filename)
  | l, v => (l, v, filename)

/-- Decorator `map_subproject_slug` (source lines 38-76): alias match first,
then child-slug match, each scoped to the parent, else Http404. -/
def map_subproject_slug (db : Database) (project : Project)
    (subproject : Option Project) (subproject_slug : Option String) :
    Except String (Option Project) :=
  if subproject = none ∧ truthy subproject_slug then
    let s := subproject_slug.getD ""
    match db.relationships.find? (fun r => r.parent == project.slug && r.alias_slug == some s) with
    | some rel => Except.ok (some rel.child)
    | none =>
      match db.relationships.find? (fun r => r.parent == project.slug && r.child.slug == s) with
      | some rel => Except.ok (some rel.child)
      | none => Except.error "Invalid subproject slug"
  else Except.ok subproject

/-- Stages of `serve_docs` from the translation hop on (source lines
178-282): translation lookup, single-version default-version override,
version lookup, access gate, storage dispatch. -/
def serve_docs_core (db : Database) (st : Settings) (can_view : Option Version → Bool)
    (sign : String → SignedUrl) (req : Request) (current_project : Project)
    (lang_slug version_slug : Option String) (filename : String) :
    Response × List Effect :=
  let final? :=
    if truthy lang_slug = false ∨ lang_slug = some current_project.language then
      some current_project
    else
      (translationsOf db current_project).find? (fun t => t.language == lang_slug.getD "")
  match final? with
  | none => (Response.notFound "No translation found for the requested language", [])
  | some final_project =>
    let vslug :=
      if final_project.single_version then some final_project.default_version
      else version_slug
    let version := db.versions.find?
      (fun w => w.project == final_project.slug && (some w.slug == vslug))
    let trace := [Effect.versionLookup vslug, Effect.permCheck]
    if can_view version = false ∧ req.user_authenticated = false then
      (Response.casLogin (cas_server req) req.absolute_uri, trace)
    else
      let path := doc_path final_project vslug filename
      if st.python_media then
        (Response.djangoFile path, trace ++ [Effect.storage path])
      else
        let url := sign path
        let p2 := stripSlashes (url.path ++ "?" ++ url.query)
        (serve_docs_nginx ("/proxito/" ++ p2), trace ++ [Effect.storage path])

/-- The `serve_docs` view (source lines 140-282), with the project and
optional subproject already injected by the decorators.  The result carries
the terminal response together with the trace of external effects. -/
def serve_docs (db : Database) (st : Settings) (can_view : Option Version → Bool)
    (sign : String → SignedUrl) (req : Request) (project : Project)
    (subproject : Option Project) (lang_slug version_slug : Option String)
    (filename : String) : Response × List Effect :=
  let current_project := subproject.getD project
  if lang_slug = none ∧ version_slug = none ∧ filename = ""
      ∧ current_project.single_version = false then
    (Response.redirect (resolve current_project req.query), [])
  else if (lang_slug = none ∨ version_slug = none)
      ∧ current_project.single_version = false then
    (Response.notFound "Invalid URL for project with versions", [])
  else
    let norm :=
      if current_project.single_version then
        fold_single_version lang_slug version_slug filename
      else (lang_slug, version_slug, filename)
    serve_docs_core db st can_view sign req current_project norm.1 norm.2.1 norm.2.2

/-- A plain multi-version project used in concrete runs. -/
def acme : Project :=
  { slug := "acme", language := "en", single_version := false, default_version := "latest" }

/-- A single-version project used in concrete runs. -/
def solo : Project :=
  { slug := "solo", language := "en", single_version := true, default_version := "stable" }

/-- Database with one version of `acme`. -/
def db1 : Database :=
  { relationships := [], versions := [{ project := "acme", slug := "latest" }], translations := [] }

/-- Database with no versions at all. -/
def db2 : Database :=
  { relationships := [], versions := [], translations := [] }

/-- Internal-redirect serving mode. -/
def st1 : Settings := { python_media := false }

/-- A concrete signing capability: prefixes the media location and attaches a
signature query. -/
def sign1 : String → SignedUrl :=
  fun p => { path := "/media/" ++ p, query := "sig=abc" }

/-- An authenticated request for a docs page. -/
def req_auth : Request :=
  { absolute_uri := "http://acme.dev.readthedocs.io/en/latest/index.html",
    query := "", user_authenticated := true }

/-- The same request from an anonymous identity. -/
def req_anon : Request :=
  { absolute_uri := "http://acme.dev.readthedocs.io/en/latest/index.html?a=b",
    query := "a=b", user_authenticated := false }

/-- Policy that denies every (identity, version) pair. -/
def always_deny : Option Version → Bool := fun _ => false

/-- Policy that allows every (identity, version) pair. -/
def always_allow : Option Version → Bool := fun _ => true

/-- Authenticated allowed request against a database holding no versions. -/
def c2_result : Response × List Effect :=
  serve_docs db2 st1 always_allow sign1 req_auth acme none (some "en") (some "latest") "index.html"

/-- A parent project owning both a plain child literally slugged "docs" and
an alias "docs" for a different child, the plain child row coming first. -/
def childA : Project :=
  { slug := "childA", language := "en", single_version := false, default_version := "latest" }

/-- The unrelated plain child whose own slug collides with the alias. -/
def docsChild : Project :=
  { slug := "docs", language := "en", single_version := false, default_version := "latest" }

/-- Parent project of the two relationships. -/
def parentProject : Project :=
  { slug := "par", language := "en", single_version := false, default_version := "latest" }

/-- Database where the plain-child row precedes the alias row in table
order. -/
def dbSub : Database :=
  { relationships :=
      [{ parent := "par", child := docsChild, alias_slug := none },
       { parent := "par", child := childA, alias_slug := some "docs" }],
    versions := [], translations := [] }

/-- A non-single-version French translation of the single-version project
`solo`. -/
def soloFr : Project :=
  { slug := "solo-fr", language := "fr", single_version := false, default_version := "latest" }

/-- Database in which `solo` owns `soloFr` as its French translation. -/
def dbTr : Database :=
  { relationships := [], versions := [], translations := [("solo", soloFr)] }

/-- Authenticated, permission denied, on an existing version. -/
def c1_result : Response × List Effect :=
  serve_docs db1 st1 always_deny sign1 req_auth acme none (some "en") (some "latest") "index.html"

/-- Claim C1 (code bug witness): with an authenticated identity whose
`can_view` predicate is false, `serve_docs` does not return the 401 page of
`_serve_401`; it falls through the permission check, accesses storage and
returns the file response. -/
theorem c1_authenticated_forbidden_not_401 :
    c1_result.fst = serve_docs_nginx "/proxito/media/html/acme/latest/index.html?sig=abc"
    ∧ c1_result.fst ≠ serve_401
    ∧ Effect.storage "html/acme/latest/index.html" ∈ c1_result.snd := by
  refine ⟨rfl, ?_, ?_⟩ <;> decide

/-- Claim C2 (counterexample): with no Version entity at all, `serve_docs`
does not produce a 404 at the version-locator stage; the permission check and
the storage dispatch still run. -/
theorem c2_missing_version_not_404 :
    db2.versions = []
    ∧ is_not_found c2_result.fst = false
    ∧ Effect.versionLookup (some "latest") ∈ c2_result.snd
    ∧ Effect.permCheck ∈ c2_result.snd
    ∧ Effect.storage "html/acme/latest/index.html" ∈ c2_result.snd := by
  refine ⟨rfl, rfl, ?_, ?_, ?_⟩ <;> decide

/-- Shape of a `serve_docs_core` result: either the translation hop 404s with
an empty effect trace, or the gate runs: the trace starts with the version
lookup and the permission check and the response is never a 404. -/
theorem core_cases (db : Database) (st : Settings)
    (cv : Option Version → Bool) (sg : String → SignedUrl) (req : Request)
    (cp : Project) (l2 v2 : Option String) (f2 : String) :
    (serve_docs_core db st cv sg req cp l2 v2 f2).snd = []
    ∨ (Effect.permCheck ∈ (serve_docs_core db st cv sg req cp l2 v2 f2).snd
      ∧ is_not_found (serve_docs_core db st cv sg req cp l2 v2 f2).fst = false) := by
  simp only [serve_docs_core]
  split
  · left; rfl
  · right
    refine ⟨?_, ?_⟩ <;> (repeat' split) <;> simp [is_not_found, serve_docs_nginx]

/-- Shape of a `serve_docs` result: either a stage before the version locator
terminated the request with an empty effect trace, or the locator and the
gate both ran and the response is not a 404. -/
theorem serve_docs_cases (db : Database) (st : Settings)
    (cv : Option Version → Bool) (sg : String → SignedUrl) (req : Request)
    (pr : Project) (sub : Option Project) (l v : Option String) (f : String) :
    (serve_docs db st cv sg req pr sub l v f).snd = []
    ∨ (Effect.permCheck ∈ (serve_docs db st cv sg req pr sub l v f).snd
      ∧ is_not_found (serve_docs db st cv sg req pr sub l v f).fst = false) := by
  simp only [serve_docs]
  split
  · left; rfl
  · split
    · left; rfl
    · exact core_cases db st cv sg req (sub.getD pr) _ _ _

/-- Claim C2 (amended): whenever the version-locator stage of `serve_docs`
has run — in particular when no Version entity exists for the located project
and version slug, since the lookup result is not inspected — the pipeline
proceeds to the access gate and the response is not a locator-stage 404. -/
theorem c2_amended_locator_always_proceeds (db : Database) (st : Settings)
    (cv : Option Version → Bool) (sg : String → SignedUrl) (req : Request)
    (pr : Project) (sub : Option Project) (l v : Option String) (f : String)
    (h : ∃ vs, Effect.versionLookup vs ∈ (serve_docs db st cv sg req pr sub l v f).snd) :
    Effect.permCheck ∈ (serve_docs db st cv sg req pr sub l v f).snd
    ∧ is_not_found (serve_docs db st cv sg req pr sub l v f).fst = false := by
  obtain ⟨vs, hvs⟩ := h
  rcases serve_docs_cases db st cv sg req pr sub l v f with hnil | hok
  · rw [hnil] at hvs
    cases hvs
  · exact hok

/-- Witness for claim C2 (amended), at a database holding no versions. -/
theorem c2_amended_witness :
    (∃ vs, Effect.versionLookup vs ∈ c2_result.snd)
    ∧ (Effect.permCheck ∈ c2_result.snd ∧ is_not_found c2_result.fst = false) :=
  ⟨⟨some "latest", by decide⟩,
    c2_amended_locator_always_proceeds db2 st1 always_allow sign1 req_auth acme none
      (some "en") (some "latest") "index.html" ⟨some "latest", by decide⟩⟩

/-- Claim C6: for a non-single-version project, a request with no language
slug, no version slug and an empty filename redirects to the canonical
default-language/default-version root with the original query string
preserved verbatim, before any external effect. -/
theorem c6_root_redirect_preserves_query (db : Database) (st : Settings)
    (cv : Option Version → Bool) (sg : String → SignedUrl) (req : Request)
    (pr : Project) (sub : Option Project)
    (h1 : (sub.getD pr).single_version = false) :
    serve_docs db st cv sg req pr sub none none ""
      = (Response.redirect (resolve (sub.getD pr) req.query), [])
    ∧ resolve (sub.getD pr) req.query
      = "/" ++ (sub.getD pr).language ++ "/" ++ (sub.getD pr).default_version ++ "/"
        ++ (if req.query == "" then "" else "?" ++ req.query) := by
  constructor
  · simp [serve_docs, h1]
  · rfl

/-- Witness for claim C6 on a concrete request carrying a query string. -/
theorem c6_witness :
    acme.single_version = false
    ∧ (serve_docs db1 st1 always_allow sign1 req_anon acme none none none ""
        = (Response.redirect (resolve acme "a=b"), [])
      ∧ resolve acme "a=b"
        = "/" ++ acme.language ++ "/" ++ acme.default_version ++ "/"
          ++ (if ("a=b" : String) == "" then "" else "?" ++ "a=b")) :=
  ⟨rfl, c6_root_redirect_preserves_query db1 st1 always_allow sign1 req_anon acme none rfl⟩

/-- Claim C7: for a non-single-version project, an incomplete version path —
exactly one of the two slugs absent, or a non-empty filename with an
incomplete slug pair — is rejected with the 404 of source line 170, with an
empty effect trace: in particular the authorization predicate is never
consulted. -/
theorem c7_incomplete_path_rejected_before_gate (db : Database) (st : Settings)
    (cv : Option Version → Bool) (sg : String → SignedUrl) (req : Request)
    (pr : Project) (sub : Option Project) (l v : Option String) (f : String)
    (h1 : (sub.getD pr).single_version = false)
    (h2 : l = none ∨ v = none)
    (h3 : ¬(l = none ∧ v = none ∧ f = "")) :
    serve_docs db st cv sg req pr sub l v f
      = (Response.notFound "Invalid URL for project with versions", [])
    ∧ Effect.permCheck ∉ (serve_docs db st cv sg req pr sub l v f).snd := by
  have hmain : serve_docs db st cv sg req pr sub l v f
      = (Response.notFound "Invalid URL for project with versions", []) := by
    simp only [serve_docs]
    rw [if_neg (fun hall => h3 ⟨hall.1, hall.2.1, hall.2.2.1⟩), if_pos ⟨h2, h1⟩]
  refine ⟨hmain, ?_⟩
  rw [hmain]
  simp

/-- Witness for claim C7: version slug absent while the language slug and the
filename are present. -/
theorem c7_witness :
    acme.single_version = false
    ∧ ((some "en" : Option String) = none ∨ (none : Option String) = none)
    ∧ ¬((some "en" : Option String) = none ∧ (none : Option String) = none ∧ ("x.html" : String) = "")
    ∧ (serve_docs db1 st1 always_deny sign1 req_auth acme none (some "en") none "x.html"
        = (Response.notFound "Invalid URL for project with versions", [])
      ∧ Effect.permCheck ∉ (serve_docs db1 st1 always_deny sign1 req_auth acme none
          (some "en") none "x.html").snd) :=
  ⟨rfl, Or.inr rfl, by simp,
    c7_incomplete_path_rejected_before_gate db1 st1 always_deny sign1 req_auth acme none
      (some "en") none "x.html" rfl (Or.inr rfl) (by simp)⟩

/-- Claim C5: subproject resolution tries an alias match scoped to the
parent first, then a child-slug match scoped to the same parent, taking the
first matching row; if any alias row matches, the resolved child is that of
an alias row even when a plain child of the same parent carries the same
slug; with no match at all the result is the invalid-subproject 404. -/
theorem c5_subproject_alias_first (db : Database) (pr : Project) (s : String)
    (hs : s ≠ "") :
    (∀ rel, db.relationships.find?
        (fun r => r.parent == pr.slug && r.alias_slug == some s) = some rel →
      map_subproject_slug db pr none (some s) = Except.ok (some rel.child))
    ∧ (db.relationships.find?
        (fun r => r.parent == pr.slug && r.alias_slug == some s) = none →
      ∀ rel, db.relationships.find?
          (fun r => r.parent == pr.slug && r.child.slug == s) = some rel →
        map_subproject_slug db pr none (some s) = Except.ok (some rel.child))
    ∧ (db.relationships.find?
        (fun r => r.parent == pr.slug && r.alias_slug == some s) = none →
      db.relationships.find?
        (fun r => r.parent == pr.slug && r.child.slug == s) = none →
      map_subproject_slug db pr none (some s) = Except.error "Invalid subproject slug")
    ∧ (∀ rel ∈ db.relationships, rel.parent = pr.slug → rel.alias_slug = some s →
      ∃ rel2 : Relationship, rel2.parent = pr.slug ∧ rel2.alias_slug = some s
        ∧ map_subproject_slug db pr none (some s) = Except.ok (some rel2.child)) := by
  have ht : truthy (some s) = true := by simp [truthy, hs]
  have key : map_subproject_slug db pr none (some s)
      = match db.relationships.find?
          (fun r => r.parent == pr.slug && r.alias_slug == some s) with
        | some rel => Except.ok (some rel.child)
        | none =>
          match db.relationships.find?
              (fun r => r.parent == pr.slug && r.child.slug == s) with
          | some rel => Except.ok (some rel.child)
          | none => Except.error "Invalid subproject slug" := by
    simp [map_subproject_slug, ht]
  refine ⟨?_, ?_, ?_, ?_⟩
  · intro rel h
    rw [key, h]
  · intro hnone rel h
    rw [key, hnone, h]
  · intro hnone1 hnone2
    rw [key, hnone1, hnone2]
  · intro rel hmem hp ha
    have hpred : (fun r => r.parent == pr.slug && r.alias_slug == some s) rel = true := by
      simp [hp, ha]
    have hsome : (db.relationships.find?
        (fun r => r.parent == pr.slug && r.alias_slug == some s)).isSome := by
      rw [List.find?_isSome]
      exact ⟨rel, hmem, hpred⟩
    obtain ⟨rel2, h2⟩ := Option.isSome_iff_exists.mp hsome
    have hprops := List.find?_some h2
    simp only [Bool.and_eq_true, beq_iff_eq] at hprops
    exact ⟨rel2, hprops.1, hprops.2, by rw [key, h2]⟩

/-- Witness for claim C5: requesting subproject "docs" resolves to the
aliased child even though a plain child slugged "docs" exists (and precedes
it in table order). -/
theorem c5_witness :
    ("docs" : String) ≠ ""
    ∧ map_subproject_slug dbSub parentProject none (some "docs")
        = Except.ok (some childA) :=
  ⟨by decide,
    (c5_subproject_alias_first dbSub parentProject "docs" (by decide)).1
      { parent := "par", child := childA, alias_slug := some "docs" } (by decide)⟩

/-- Gate behaviour of `serve_docs_core` for an anonymous, denied identity:
either the translation hop already 404d (empty trace), or the result is the
CAS login challenge carrying the chosen server and the original absolute
URL. -/
theorem core_gate (db : Database) (st : Settings)
    (cv : Option Version → Bool) (sg : String → SignedUrl) (req : Request)
    (cp : Project) (l2 v2 : Option String) (f2 : String)
    (hanon : req.user_authenticated = false) (hcv : ∀ ov, cv ov = false) :
    (serve_docs_core db st cv sg req cp l2 v2 f2).snd = []
    ∨ (serve_docs_core db st cv sg req cp l2 v2 f2).fst
        = Response.casLogin (cas_server req) req.absolute_uri := by
  simp only [serve_docs_core]
  split
  · left; rfl
  · right
    rw [if_pos ⟨hcv _, hanon⟩]

/-- Gate behaviour of `serve_docs` for an anonymous, denied identity. -/
theorem serve_docs_gate (db : Database) (st : Settings)
    (cv : Option Version → Bool) (sg : String → SignedUrl) (req : Request)
    (pr : Project) (sub : Option Project) (l v : Option String) (f : String)
    (hanon : req.user_authenticated = false) (hcv : ∀ ov, cv ov = false) :
    (serve_docs db st cv sg req pr sub l v f).snd = []
    ∨ (serve_docs db st cv sg req pr sub l v f).fst
        = Response.casLogin (cas_server req) req.absolute_uri := by
  simp only [serve_docs]
  split
  · left; rfl
  · split
    · left; rfl
    · exact core_gate db st cv sg req (sub.getD pr) _ _ _ hanon hcv

/-- Claim C4: when the identity is anonymous and `can_view` is false on
every version, any request that reaches the access gate is answered with the
CAS login challenge whose post-login target is the exact original absolute
URL (including the query string), and the challenge goes through the
internal service endpoint exactly when the request carries the
login-callback ticket marker, through the external endpoint otherwise. -/
theorem c4_anonymous_challenge_roundtrip (db : Database) (st : Settings)
    (cv : Option Version → Bool) (sg : String → SignedUrl) (req : Request)
    (pr : Project) (sub : Option Project) (l v : Option String) (f : String)
    (hanon : req.user_authenticated = false)
    (hcv : ∀ ov, cv ov = false)
    (hreach : Effect.permCheck ∈ (serve_docs db st cv sg req pr sub l v f).snd) :
    (serve_docs db st cv sg req pr sub l v f).fst
        = Response.casLogin (cas_server req) req.absolute_uri
    ∧ (cas_server req = "http://web:8000/cas/" ↔ hasTicket req = true)
    ∧ (cas_server req = "http://dev.readthedocs.io/cas/" ↔ hasTicket req = false) := by
  refine ⟨?_, ?_, ?_⟩
  · rcases serve_docs_gate db st cv sg req pr sub l v f hanon hcv with hnil | hok
    · rw [hnil] at hreach
      cases hreach
    · exact hok
  · by_cases htk : hasTicket req = true
    · simp [cas_server, htk]
    · have hf : hasTicket req = false := by
        revert htk
        cases hasTicket req <;> simp
      simp only [cas_server, hf]
      decide
  · by_cases htk : hasTicket req = true
    · simp only [cas_server, htk]
      decide
    · have hf : hasTicket req = false := by
        revert htk
        cases hasTicket req <;> simp
      simp [cas_server, hf]

/-- Witness for claim C4 on an anonymous denied request without a ticket
marker. -/
theorem c4_witness :
    req_anon.user_authenticated = false
    ∧ ((serve_docs db1 st1 always_deny sign1 req_anon acme none (some "en")
          (some "latest") "index.html").fst
        = Response.casLogin (cas_server req_anon) req_anon.absolute_uri
      ∧ (cas_server req_anon = "http://web:8000/cas/" ↔ hasTicket req_anon = true)
      ∧ (cas_server req_anon = "http://dev.readthedocs.io/cas/" ↔ hasTicket req_anon = false)) :=
  ⟨rfl, c4_anonymous_challenge_roundtrip db1 st1 always_deny sign1 req_anon acme none
    (some "en") (some "latest") "index.html" rfl (fun _ => rfl) (by decide)⟩

/-- Claim C9: a filename ending in a slash yields exactly the same storage
path as the same filename with index.html appended, and a `serve_docs` run
accesses at most one candidate storage path. -/
theorem c9_trailing_slash_same_storage_path :
    (∀ (pr : Project) (vs : Option String) (f : String), endsWithSlash f = true →
      doc_path pr vs f = doc_path pr vs (f ++ "index.html"))
    ∧ (∀ (db : Database) (st : Settings) (cv : Option Version → Bool)
        (sg : String → SignedUrl) (req : Request) (pr : Project) (sub : Option Project)
        (l v : Option String) (fn : String),
      (((serve_docs db st cv sg req pr sub l v fn).snd).filter is_storage).length ≤ 1) := by
  constructor
  · intro pr vs f hf
    rw [endsWithSlash] at hf
    have hlast : f.data.getLast? = some '/' := beq_iff_eq.mp hf
    have hne : f.data ≠ [] := by
      intro h0
      rw [h0] at hlast
      simp at hlast
    have hIne : ("index.html" : String).data ≠ [] := by decide
    have e1 : endsWithSlash (get_storage_path pr vs ++ "/" ++ f) = true := by
      rw [endsWithSlash, String.data_append, List.getLast?_append_of_ne_nil _ hne, hlast]
      rfl
    have e2 : endsWithSlash (get_storage_path pr vs ++ "/" ++ (f ++ "index.html")) = false := by
      rw [endsWithSlash]
      simp only [String.data_append]
      rw [List.getLast?_append_of_ne_nil _
        (fun hemp => hIne (List.append_eq_nil.mp hemp).2)]
      rw [List.getLast?_append_of_ne_nil _ hIne]
      rfl
    simp only [doc_path, indexify, e1, e2, if_true, if_false]
    exact String.append_assoc _ _ _
  · intro db st cv sg req pr sub l v fn
    simp only [serve_docs]
    split
    · simp
    · split
      · simp
      · simp only [serve_docs_core]
        split
        · simp
        · (repeat' split) <;> simp [is_storage]

/-- Witness for claim C9 at a concrete directory-style filename. -/
theorem c9_witness :
    endsWithSlash "install/" = true
    ∧ doc_path acme (some "latest") "install/"
        = doc_path acme (some "latest") ("install/" ++ "index.html") :=
  ⟨by decide,
    c9_trailing_slash_same_storage_path.1 acme (some "latest") "install/" (by decide)⟩

/-- Dropping a false-predicate prefix never loses an element on which the
predicate is false. -/
theorem mem_dropWhile_of_false {α : Type} (p : α → Bool) {a : α} (ha : p a = false) :
    ∀ {l : List α}, a ∈ l → a ∈ l.dropWhile p := by
  intro l
  induction l with
  | nil =>
    intro h
    cases h
  | cons x xs ih =>
    intro h
    rw [List.dropWhile_cons]
    split
    · next hx =>
      rcases List.mem_cons.mp h with h1 | h2
      · subst h1
        rw [hx] at ha
        simp at ha
      · exact ih h2
    · exact h

/-- Stripping slashes from both ends keeps every non-slash character. -/
theorem mem_stripSlashesList {a : Char} (ha : (a == '/') = false) {l : List Char}
    (h : a ∈ l) : a ∈ stripSlashesList l := by
  unfold stripSlashesList
  rw [List.mem_reverse]
  apply mem_dropWhile_of_false (fun c => c == '/') ha
  rw [List.mem_reverse]
  exact mem_dropWhile_of_false (fun c => c == '/') ha h

/-- Possible responses of `serve_docs_core`: a translation 404, a CAS
challenge, a local file response, or the nginx response built from the
`/proxito/`-prefixed, slash-stripped path and query of a signed URL. -/
theorem core_resp_shape (db : Database) (st : Settings)
    (cv : Option Version → Bool) (sg : String → SignedUrl) (req : Request)
    (cp : Project) (l2 v2 : Option String) (f2 : String) :
    (∃ r, (serve_docs_core db st cv sg req cp l2 v2 f2).fst = Response.notFound r)
    ∨ (∃ s n, (serve_docs_core db st cv sg req cp l2 v2 f2).fst = Response.casLogin s n)
    ∨ (∃ p, (serve_docs_core db st cv sg req cp l2 v2 f2).fst = Response.djangoFile p)
    ∨ (∃ p0, (serve_docs_core db st cv sg req cp l2 v2 f2).fst
        = serve_docs_nginx ("/proxito/" ++ stripSlashes ((sg p0).path ++ "?" ++ (sg p0).query))) := by
  simp only [serve_docs_core]
  split
  · exact Or.inl ⟨_, rfl⟩
  · (repeat' split) <;>
      first
        | exact Or.inl ⟨_, rfl⟩
        | exact Or.inr (Or.inl ⟨_, _, rfl⟩)
        | exact Or.inr (Or.inr (Or.inl ⟨_, rfl⟩))
        | exact Or.inr (Or.inr (Or.inr ⟨_, rfl⟩))

/-- Possible responses of `serve_docs`: additionally the root redirect and
the incomplete-path 404. -/
theorem serve_docs_resp_shape (db : Database) (st : Settings)
    (cv : Option Version → Bool) (sg : String → SignedUrl) (req : Request)
    (pr : Project) (sub : Option Project) (l v : Option String) (fn : String) :
    (∃ t, (serve_docs db st cv sg req pr sub l v fn).fst = Response.redirect t)
    ∨ ((∃ r, (serve_docs db st cv sg req pr sub l v fn).fst = Response.notFound r)
      ∨ (∃ s n, (serve_docs db st cv sg req pr sub l v fn).fst = Response.casLogin s n)
      ∨ (∃ p, (serve_docs db st cv sg req pr sub l v fn).fst = Response.djangoFile p)
      ∨ (∃ p0, (serve_docs db st cv sg req pr sub l v fn).fst
          = serve_docs_nginx ("/proxito/" ++ stripSlashes ((sg p0).path ++ "?" ++ (sg p0).query)))) := by
  simp only [serve_docs]
  split
  · exact Or.inl ⟨_, rfl⟩
  · split
    · exact Or.inr (Or.inl ⟨_, rfl⟩)
    · exact Or.inr (core_resp_shape db st cv sg req (sub.getD pr) _ _ _)

/-- Claim C10: every nginx response of `serve_docs` carries a path argument
of the exact form `/proxito/` followed by the slash-stripped concatenation of
the signed URL's path, a mandatory question mark and the signed URL's query,
and its header is the `iri_to_uri` image of that path argument. -/
theorem c10_proxito_header_shape (db : Database) (st : Settings)
    (cv : Option Version → Bool) (sg : String → SignedUrl) (req : Request)
    (pr : Project) (sub : Option Project) (l v : Option String) (fn : String)
    (ct : String) (ce : Option String) (hd : List Nat) (pa : String)
    (h : (serve_docs db st cv sg req pr sub l v fn).fst = Response.nginx ct ce hd pa) :
    (∃ p0, pa = "/proxito/" ++ stripSlashes ((sg p0).path ++ "?" ++ (sg p0).query))
    ∧ '?' ∈ pa.data
    ∧ hd = iriToUri (pa.data.map Char.toNat) := by
  rcases serve_docs_resp_shape db st cv sg req pr sub l v fn with
    ⟨t, ht⟩ | ⟨r, hr⟩ | ⟨s, n, hsn⟩ | ⟨p, hp⟩ | ⟨p0, hn⟩
  · rw [ht] at h
    cases h
  · rw [hr] at h
    cases h
  · rw [hsn] at h
    cases h
  · rw [hp] at h
    cases h
  · rw [hn] at h
    simp only [serve_docs_nginx] at h
    injection h with hct hce hhd hpa
    refine ⟨⟨p0, hpa.symm⟩, ?_, ?_⟩
    · rw [← hpa, String.data_append]
      apply List.mem_append_right
      show '?' ∈ stripSlashesList ((sg p0).path ++ "?" ++ (sg p0).query).data
      apply mem_stripSlashesList (by decide)
      simp only [String.data_append]
      exact List.mem_append_left _ (List.mem_append_right _ (by decide))
    · rw [← hhd, ← hpa]

/-- Witness for claim C10 at a concrete request served through nginx. -/
theorem c10_witness :
    ((serve_docs db1 st1 always_allow sign1 req_auth acme none (some "en")
        (some "latest") "index.html").fst
      = Response.nginx "application/octet-stream" none
          (iriToUri (("/proxito/media/html/acme/latest/index.html?sig=abc" : String).data.map Char.toNat))
          "/proxito/media/html/acme/latest/index.html?sig=abc")
    ∧ ((∃ p0, ("/proxito/media/html/acme/latest/index.html?sig=abc" : String)
          = "/proxito/" ++ stripSlashes ((sign1 p0).path ++ "?" ++ (sign1 p0).query))
      ∧ '?' ∈ ("/proxito/media/html/acme/latest/index.html?sig=abc" : String).data
      ∧ iriToUri (("/proxito/media/html/acme/latest/index.html?sig=abc" : String).data.map Char.toNat)
        = iriToUri (("/proxito/media/html/acme/latest/index.html?sig=abc" : String).data.map Char.toNat)) :=
  ⟨rfl, c10_proxito_header_shape db1 st1 always_allow sign1 req_auth acme none (some "en")
    (some "latest") "index.html" "application/octet-stream" none
    (iriToUri (("/proxito/media/html/acme/latest/index.html?sig=abc" : String).data.map Char.toNat))
    "/proxito/media/html/acme/latest/index.html?sig=abc" rfl⟩

/-- For a single-version project a falsy language slug makes the language
and version slugs irrelevant: the translation hop keeps the current project
and the default version overrides the version slug. -/
theorem core_falsy_lang (db : Database) (st : Settings)
    (cv : Option Version → Bool) (sg : String → SignedUrl) (req : Request)
    (cp : Project) (l2 v2 : Option String) (f : String)
    (h1 : cp.single_version = true) (hl : truthy l2 = false) :
    serve_docs_core db st cv sg req cp l2 v2 f
      = serve_docs_core db st cv sg req cp none none f := by
  have htn : truthy (none : Option String) = false := rfl
  simp only [serve_docs_core]
  rw [if_pos (Or.inl hl), if_pos (Or.inl htn)]
  simp [h1]

/-- Effect-trace shape of a single-version `serve_docs_core` run with
cleared slugs: the version lookup always uses the default version and any
storage access uses the path built from it. -/
theorem core_single_shape (db : Database) (st : Settings)
    (cv : Option Version → Bool) (sg : String → SignedUrl) (req : Request)
    (cp : Project) (f2 : String) (h1 : cp.single_version = true) :
    (serve_docs_core db st cv sg req cp none none f2).snd
      = [Effect.versionLookup (some cp.default_version), Effect.permCheck]
    ∨ (serve_docs_core db st cv sg req cp none none f2).snd
      = [Effect.versionLookup (some cp.default_version), Effect.permCheck,
         Effect.storage (doc_path cp (some cp.default_version) f2)] := by
  have htn : truthy (none : Option String) = false := rfl
  simp only [serve_docs_core]
  rw [if_pos (Or.inl htn)]
  simp only [h1]
  (repeat' split) <;> simp_all

/-- Claim C3 (amended): for a single-version project, on every input path
except a lang-only one (a truthy language slug with no truthy version slug),
the version slug used at the version-lookup stage and in the storage path is
always the project's configured default version, whatever lang/version-like
segments the path supplied; when both segments are supplied they are folded
into the filename as joined path segments and cleared.  On the excluded
lang-only paths the code guards the default-version override on the
translation reached by the hop, not on the addressed project. -/
theorem c3_single_version_default (db : Database) (st : Settings)
    (cv : Option Version → Bool) (sg : String → SignedUrl) (req : Request)
    (pr : Project) (sub : Option Project) (lang ver : Option String) (f : String)
    (h1 : (sub.getD pr).single_version = true)
    (h2 : truthy lang = true → truthy ver = true) :
    serve_docs db st cv sg req pr sub lang ver f
      = serve_docs_core db st cv sg req (sub.getD pr) none none
          (fold_single_version lang ver f).2.2
    ∧ Effect.versionLookup (some (sub.getD pr).default_version)
        ∈ (serve_docs db st cv sg req pr sub lang ver f).snd
    ∧ (∀ p, Effect.storage p ∈ (serve_docs db st cv sg req pr sub lang ver f).snd →
        p = doc_path (sub.getD pr) (some (sub.getD pr).default_version)
          (fold_single_version lang ver f).2.2)
    ∧ (truthy lang = true →
        fold_single_version lang ver f
          = (none, none, ospJoin (ospJoin (lang.getD "") (ver.getD "")) f)) := by
  have hmain : serve_docs db st cv sg req pr sub lang ver f
      = serve_docs_core db st cv sg req (sub.getD pr) none none
          (fold_single_version lang ver f).2.2 := by
    simp only [serve_docs, h1]
    rw [if_neg (by simp), if_neg (by simp), if_pos trivial]
    rcases lang with _ | ls
    · simp only [fold_single_version]
      exact core_falsy_lang db st cv sg req (sub.getD pr) none ver f h1 rfl
    · rcases ver with _ | vs
      · by_cases hls : ls = ""
        · subst hls
          simp only [fold_single_version]
          exact core_falsy_lang db st cv sg req (sub.getD pr) (some "") none f h1 rfl
        · exfalso
          have := h2 (by simp [truthy, hls])
          simp [truthy] at this
      · by_cases hb : ls ≠ "" ∧ vs ≠ ""
        · simp [fold_single_version, hb]
        · by_cases hls : ls = ""
          · subst hls
            simp only [fold_single_version, if_neg hb]
            exact core_falsy_lang db st cv sg req (sub.getD pr) (some "") (some vs) f h1 rfl
          · exfalso
            have hvs : vs = "" := by
              by_contra hvs
              exact hb ⟨hls, hvs⟩
            have := h2 (by simp [truthy, hls])
            simp [truthy, hvs] at this
  refine ⟨hmain, ?_, ?_, ?_⟩
  · rw [hmain]
    rcases core_single_shape db st cv sg req (sub.getD pr)
        (fold_single_version lang ver f).2.2 h1 with h | h <;> rw [h] <;> simp
  · intro p hp
    rw [hmain] at hp
    rcases core_single_shape db st cv sg req (sub.getD pr)
        (fold_single_version lang ver f).2.2 h1 with h | h
    · rw [h] at hp
      simp at hp
    · rw [h] at hp
      simpa using hp
  · intro htl
    have htv := h2 htl
    rcases lang with _ | ls
    · simp [truthy] at htl
    · rcases ver with _ | vs
      · simp [truthy] at htv
      · have hls : ls ≠ "" := by simpa [truthy] using htl
        have hvs : vs ≠ "" := by simpa [truthy] using htv
        simp [fold_single_version, hls, hvs]

/-- Witness for claim C3: a single-version project addressed with a
versioned-looking path. -/
theorem c3_witness :
    solo.single_version = true
    ∧ (truthy (some "en") = true → truthy (some "v1") = true)
    ∧ (serve_docs db1 st1 always_allow sign1 req_auth solo none (some "en") (some "v1") "x.html"
        = serve_docs_core db1 st1 always_allow sign1 req_auth solo none none
            (fold_single_version (some "en") (some "v1") "x.html").2.2
      ∧ Effect.versionLookup (some solo.default_version)
          ∈ (serve_docs db1 st1 always_allow sign1 req_auth solo none
              (some "en") (some "v1") "x.html").snd
      ∧ (∀ p, Effect.storage p ∈ (serve_docs db1 st1 always_allow sign1 req_auth solo none
              (some "en") (some "v1") "x.html").snd →
          p = doc_path solo (some solo.default_version)
            (fold_single_version (some "en") (some "v1") "x.html").2.2)
      ∧ (truthy (some "en") = true →
          fold_single_version (some "en") (some "v1") "x.html"
            = (none, none, ospJoin (ospJoin ((some "en").getD "") ((some "v1").getD "")) "x.html"))) :=
  ⟨rfl, fun h => by decide,
    c3_single_version_default db1 st1 always_allow sign1 req_auth solo none
      (some "en") (some "v1") "x.html" rfl (fun h => by decide)⟩

/-- Claim C3 (counterexample): a single-version project addressed with a
language slug but no version slug, owning a non-single-version translation
for that language, looks the version up with an absent slug — not the
configured default of either project — and builds the storage path with the
literal None. -/
theorem c3_lang_only_translation_not_default :
    solo.single_version = true
    ∧ soloFr.single_version = false
    ∧ Effect.versionLookup none
        ∈ (serve_docs dbTr st1 always_allow sign1 req_auth solo none
            (some "fr") none "x.html").snd
    ∧ Effect.versionLookup (some solo.default_version)
        ∉ (serve_docs dbTr st1 always_allow sign1 req_auth solo none
            (some "fr") none "x.html").snd
    ∧ Effect.versionLookup (some soloFr.default_version)
        ∉ (serve_docs dbTr st1 always_allow sign1 req_auth solo none
            (some "fr") none "x.html").snd
    ∧ Effect.storage "html/solo-fr/None/x.html"
        ∈ (serve_docs dbTr st1 always_allow sign1 req_auth solo none
            (some "fr") none "x.html").snd
    ∧ Effect.storage (doc_path solo (some solo.default_version) "x.html")
        ∉ (serve_docs dbTr st1 always_allow sign1 req_auth solo none
            (some "fr") none "x.html").snd := by
  decide

/-- Safe characters of `iri_to_uri` are plain ASCII. -/
theorem allowedChar_lt_128 {c : Nat} (h : allowedChar c = true) : c < 128 := by
  simp only [allowedChar, Bool.or_eq_true, decide_eq_true_eq] at h
  have hlist : ∀ x ∈ [95, 46, 45, 126, 47, 35, 37, 91, 93, 61, 58, 59, 36, 38,
      40, 41, 43, 44, 33, 63, 42, 64, 39], x < 128 := by decide
  rcases h with ((h | h) | h) | h
  · omega
  · omega
  · omega
  · exact hlist c h

/-- UTF-8 encoding produces bytes. -/
theorem utf8Encode_lt_256 {c : Nat} (hc : c < 0x110000) : ∀ b ∈ utf8Encode c, b < 256 := by
  unfold utf8Encode
  split
  · intro b hb
    simp at hb
    omega
  · split
    · intro b hb
      simp at hb
      rcases hb with rfl | rfl <;> omega
    · split
      · intro b hb
        simp at hb
        rcases hb with rfl | rfl | rfl <;> omega
      · intro b hb
        simp at hb
        rcases hb with rfl | rfl | rfl | rfl <;> omega

/-- Hexadecimal digit characters are ASCII. -/
theorem hexDigit_lt_128 {n : Nat} (h : n < 16) : hexDigit n < 128 := by
  unfold hexDigit
  split <;> omega

/-- Reading back the hexadecimal digit of a nibble. -/
theorem hexVal_hexDigit {n : Nat} (h : n < 16) : hexVal (hexDigit n) = some n := by
  unfold hexDigit
  split
  · unfold hexVal
    rw [if_pos (by omega)]
    congr 1
    omega
  · unfold hexVal
    rw [if_neg (by omega), if_pos (by omega)]
    congr 1
    omega

/-- Percent-decoding inverts the percent-encoding of one byte. -/
theorem pctDecode_encByte {b : Nat} (hb : b < 256) (t : List Nat) :
    pctDecode (pctEncodeByte b ++ t) = (pctDecode t).map (fun r => b :: r) := by
  have h1 : hexVal (hexDigit (b / 16)) = some (b / 16) := hexVal_hexDigit (by omega)
  have h2 : hexVal (hexDigit (b % 16)) = some (b % 16) := hexVal_hexDigit (by omega)
  show pctDecode (37 :: hexDigit (b / 16) :: hexDigit (b % 16) :: t) = _
  rw [pctDecode.eq_def]
  dsimp only
  rw [if_pos rfl, h1, h2]
  dsimp only
  have hb16 : 16 * (b / 16) + b % 16 = b := Nat.div_add_mod b 16
  simp only [hb16]

/-- Percent-decoding inverts the percent-encoding of a byte list. -/
theorem pctDecode_encBytes {bs : List Nat} (hb : ∀ b ∈ bs, b < 256) (t : List Nat) :
    pctDecode (concatMap pctEncodeByte bs ++ t) = (pctDecode t).map (fun r => bs ++ r) := by
  induction bs with
  | nil =>
    simp only [concatMap, List.nil_append]
    cases pctDecode t <;> simp
  | cons b bs ih =>
    simp only [concatMap, List.append_assoc]
    rw [pctDecode_encByte (hb b (by simp)) _]
    rw [ih (fun x hx => hb x (by simp [hx]))]
    cases pctDecode t <;> simp

/-- Percent-decoding passes a non-percent character through. -/
theorem pctDecode_plain {c : Nat} (h37 : c ≠ 37) (t : List Nat) :
    pctDecode (c :: t) = (pctDecode t).map (fun r => c :: r) := by
  rw [pctDecode.eq_def]
  dsimp only
  rw [if_neg h37]

/-- UTF-8 encodings are never empty. -/
theorem utf8Encode_ne_nil (c : Nat) : utf8Encode c ≠ [] := by
  unfold utf8Encode
  (repeat' split) <;> simp

/-- Decoding one code point inverts the UTF-8 encoding of that code point,
leaving the tail untouched. -/
theorem utf8DecodeOne_encode {c : Nat} (hc : c < 0x110000) (t : List Nat) :
    utf8DecodeOne (utf8Encode c ++ t) = some (c, t) := by
  unfold utf8Encode
  split
  · next h1 =>
    simp only [List.cons_append, List.nil_append, utf8DecodeOne]
    rw [if_pos h1]
  · split
    · next h1 h2 =>
      simp only [List.cons_append, List.nil_append, utf8DecodeOne]
      rw [if_neg (by omega), if_neg (by omega), if_pos (by omega)]
      simp only [cont1]
      rw [if_pos ⟨by omega, by omega⟩]
      have harith : (0xC0 + c / 0x40 - 0xC0) * 0x40 + (0x80 + c % 0x40 - 0x80) = c := by
        omega
      rw [harith]
    · split
      · next h1 h2 h3 =>
        simp only [List.cons_append, List.nil_append, utf8DecodeOne]
        rw [if_neg (by omega), if_neg (by omega), if_neg (by omega), if_pos (by omega)]
        simp only [cont2, cont1]
        rw [if_pos ⟨by omega, by omega⟩]
        simp only [Option.some_bind]
        rw [if_pos ⟨by omega, by omega⟩]
        have harith : ((0xE0 + c / 0x1000 - 0xE0) * 0x40 + (0x80 + c / 0x40 % 0x40 - 0x80))
            * 0x40 + (0x80 + c % 0x40 - 0x80) = c := by
          omega
        rw [harith]
      · next h1 h2 h3 =>
        simp only [List.cons_append, List.nil_append, utf8DecodeOne]
        rw [if_neg (by omega), if_neg (by omega), if_neg (by omega), if_neg (by omega),
          if_pos (by omega)]
        simp only [cont3, cont2, cont1]
        rw [if_pos ⟨by omega, by omega⟩]
        simp only [Option.some_bind]
        rw [if_pos ⟨by omega, by omega⟩]
        simp only [Option.some_bind]
        rw [if_pos ⟨by omega, by omega⟩]
        have harith : (((0xF0 + c / 0x40000 - 0xF0) * 0x40 + (0x80 + c / 0x1000 % 0x40 - 0x80))
            * 0x40 + (0x80 + c / 0x40 % 0x40 - 0x80)) * 0x40 + (0x80 + c % 0x40 - 0x80) = c := by
          omega
        rw [harith]

/-- With enough fuel, the decoding loop inverts the concatenated UTF-8
encoding of a code-point list. -/
theorem utf8DecodeLoop_encode {s : List Nat} (hs : ∀ c ∈ s, c < 0x110000) :
    ∀ fuel, (concatMap utf8Encode s).length ≤ fuel →
      utf8DecodeLoop fuel (concatMap utf8Encode s) = some s := by
  induction s with
  | nil =>
    intro fuel _
    cases fuel <;> rfl
  | cons c cs ih =>
    intro fuel hfuel
    have hc : c < 0x110000 := hs c (by simp)
    obtain ⟨b, bs, hcons⟩ : ∃ b bs, utf8Encode c = b :: bs := by
      rcases hx : utf8Encode c with _ | ⟨b, bs⟩
      · exact absurd hx (utf8Encode_ne_nil c)
      · exact ⟨b, bs, rfl⟩
    have hconc : concatMap utf8Encode (c :: cs)
        = b :: (bs ++ concatMap utf8Encode cs) := by
      simp only [concatMap, hcons, List.cons_append]
    rw [hconc] at hfuel ⊢
    rcases fuel with _ | f
    · simp at hfuel
    · simp only [utf8DecodeLoop]
      have hone : utf8DecodeOne (b :: (bs ++ concatMap utf8Encode cs))
          = some (c, concatMap utf8Encode cs) := by
        rw [show b :: (bs ++ concatMap utf8Encode cs)
            = utf8Encode c ++ concatMap utf8Encode cs by rw [hcons]; rfl]
        exact utf8DecodeOne_encode hc _
      rw [hone]
      simp only [Option.some_bind]
      rw [ih (fun x hx => hs x (by simp [hx])) f (by
        have hlen : (utf8Encode c).length = bs.length + 1 := by rw [hcons]; rfl
        simp only [List.length_cons, List.length_append] at hfuel
        omega)]
      rfl

/-- UTF-8 decoding inverts the concatenated UTF-8 encoding. -/
theorem utf8Decode_concatMap {s : List Nat} (hs : ∀ c ∈ s, c < 0x110000) :
    utf8Decode (concatMap utf8Encode s) = some s := by
  unfold utf8Decode
  exact utf8DecodeLoop_encode hs _ (Nat.le_refl _)

/-- Percent-decoding the `iri_to_uri` image of a percent-free code-point
list recovers its UTF-8 byte stream. -/
theorem pctDecode_iriToUri {s : List Nat} (hs : ∀ c ∈ s, c < 0x110000 ∧ c ≠ 37)
    (t : List Nat) :
    pctDecode (iriToUri s ++ t)
      = (pctDecode t).map (fun r => concatMap utf8Encode s ++ r) := by
  induction s with
  | nil =>
    simp only [iriToUri, concatMap, List.nil_append]
    cases pctDecode t <;> simp
  | cons c cs ih =>
    have hc := hs c (by simp)
    have ihx := ih (fun x hx => hs x (by simp [hx]))
    simp only [iriToUri, concatMap] at ihx ⊢
    by_cases ha : allowedChar c = true
    · rw [if_pos ha]
      simp only [List.cons_append, List.nil_append]
      rw [pctDecode_plain hc.2]
      rw [ihx]
      have hu : utf8Encode c = [c] := by
        unfold utf8Encode
        rw [if_pos (allowedChar_lt_128 ha)]
      rw [hu]
      cases pctDecode t <;> simp
    · rw [if_neg ha]
      rw [List.append_assoc]
      rw [pctDecode_encBytes (utf8Encode_lt_256 hc.1)]
      rw [ihx]
      cases pctDecode t <;> simp

/-- Decoding the `iri_to_uri` image of a percent-free code-point list
recovers exactly that list. -/
theorem uriToIri_iriToUri {s : List Nat} (hs : ∀ c ∈ s, c < 0x110000 ∧ c ≠ 37) :
    uriToIri (iriToUri s) = some s := by
  unfold uriToIri
  have h1 := pctDecode_iriToUri hs []
  rw [List.append_nil] at h1
  rw [h1]
  have h2 : pctDecode [] = some [] := rfl
  rw [h2]
  simp only [Option.map_some', List.append_nil, Option.some_bind]
  exact utf8Decode_concatMap (fun c hc => (hs c hc).1)

/-- Membership in a `concatMap` comes from one of the pieces. -/
theorem mem_concatMap {α β : Type} {f : α → List β} {b : β} :
    ∀ {l : List α}, b ∈ concatMap f l → ∃ a ∈ l, b ∈ f a := by
  intro l
  induction l with
  | nil =>
    intro h
    cases h
  | cons x xs ih =>
    intro h
    rcases List.mem_append.mp h with h1 | h2
    · exact ⟨x, by simp, h1⟩
    · obtain ⟨a, ha, hb2⟩ := ih h2
      exact ⟨a, by simp [ha], hb2⟩

/-- The `iri_to_uri` image of valid code points is pure ASCII. -/
theorem iriToUri_ascii {s : List Nat} (hs : ∀ c ∈ s, c < 0x110000) :
    ∀ b ∈ iriToUri s, b < 128 := by
  intro b hb
  unfold iriToUri at hb
  obtain ⟨c, hcs, hbc⟩ := mem_concatMap hb
  by_cases ha : allowedChar c = true
  · rw [if_pos ha] at hbc
    simp only [List.mem_singleton] at hbc
    subst hbc
    exact allowedChar_lt_128 ha
  · rw [if_neg ha] at hbc
    obtain ⟨byt, hbyt, hbb⟩ := mem_concatMap hbc
    have hbyt256 : byt < 256 := utf8Encode_lt_256 (hs c hcs) byt hbyt
    simp only [pctEncodeByte, List.mem_cons, List.mem_singleton] at hbb
    rcases hbb with rfl | rfl | hbb
    · omega
    · exact hexDigit_lt_128 (by omega)
    · simp at hbb
      subst hbb
      exact hexDigit_lt_128 (by omega)

/-- Claim C8 (counterexample): `iri_to_uri` leaves a literal percent sign
unescaped, so decoding the header of an internal-redirect response for a
path containing a pre-escaped sequence does not reconstruct the original
path characters. -/
theorem c8_percent_not_roundtripped :
    response_header (serve_docs_nginx "/proxito/%41")
      = iriToUri (("/proxito/%41" : String).data.map Char.toNat)
    ∧ uriToIri (response_header (serve_docs_nginx "/proxito/%41"))
      ≠ some (("/proxito/%41" : String).data.map Char.toNat) :=
  ⟨rfl, by decide⟩

/-- Claim C8 (amended): the internal-redirect header of every response holds
only ASCII code points, even when the path has non-ASCII characters; and for
every path whose characters avoid the literal percent sign, decoding the
header back (percent-decoding, then UTF-8) reconstructs exactly the original
path's characters. -/
theorem c8_amended_ascii_and_roundtrip :
    (∀ s : String, ∀ b ∈ response_header (serve_docs_nginx s), b < 128)
    ∧ (∀ s : String, (∀ ch ∈ s.data, ch.toNat ≠ 37) →
        uriToIri (response_header (serve_docs_nginx s))
          = some (s.data.map Char.toNat)) := by
  have hvalid : ∀ s : String, ∀ c ∈ s.data.map Char.toNat, c < 0x110000 := by
    intro s c hc
    obtain ⟨ch, hch, rfl⟩ := List.mem_map.mp hc
    have he : ch.toNat = ch.val.toNat := rfl
    rcases ch.valid with h | ⟨h1, h2⟩
    · rw [he]
      omega
    · rw [he]
      exact h2
  constructor
  · intro s b hb
    exact iriToUri_ascii (hvalid s) b hb
  · intro s h37
    have hboth : ∀ c ∈ s.data.map Char.toNat, c < 0x110000 ∧ c ≠ 37 := by
      intro c hc
      obtain ⟨ch, hch, hrfl⟩ := List.mem_map.mp hc
      subst hrfl
      exact ⟨hvalid s _ hc, h37 ch hch⟩
    show uriToIri (iriToUri (s.data.map Char.toNat)) = _
    exact uriToIri_iriToUri hboth

/-- Witness for claim C8 (amended): the ASCII part at a path carrying both a
non-ASCII character and a percent escape, the round-trip part at a
percent-free path with a non-ASCII character. -/
theorem c8_amended_witness :
    (∀ b ∈ response_header (serve_docs_nginx "/proxito/café?sig=%41"), b < 128)
    ∧ ((∀ ch ∈ ("/proxito/café" : String).data, ch.toNat ≠ 37)
      ∧ uriToIri (response_header (serve_docs_nginx "/proxito/café"))
        = some (("/proxito/café" : String).data.map Char.toNat)) :=
  ⟨c8_amended_ascii_and_roundtrip.1 "/proxito/café?sig=%41",
    by decide,
    c8_amended_ascii_and_roundtrip.2 "/proxito/café" (by decide)⟩
